import Mathlib

/-!
Shallow embedding, in Lean, of the core of `src/tools/fiwalk/python/dfxml.py`
(sleuthkit): the `byte_run` attribute decoding, `combine_runs`, the
`extentdb` interval database, the `fileobject_reader` and `regxml_reader`
SAX state machines, and the `dftime` value type.

Python integers are modelled as `Int`.  Python floor division (`//`, and
the integer `/` of Python 2 that `extentdb.sectors_for_run` relies on) is
modelled as `Int.fdiv`.  Python `dict`s (insertion ordered) are modelled
as association lists with replace-in-place update.  Code paths that raise
are modelled with explicit error results.
-/

/-- A Python scalar value as it occurs in the dfxml object model:
`None`, an `int`, or a `str`. -/
inductive PyVal where
  | none
  | int (i : Int)
  | str (s : String)
deriving DecidableEq

/-- The Python exception kinds raised by the embedded code paths. -/
inductive PyError where
  | valueError
  | typeError
  | keyError
  | indexError
  | attributeError
  | assertionError
deriving DecidableEq

/-- Insertion-ordered dictionary update, as for a Python `dict` item
assignment: replace the value at an existing key in place, else append. -/
def dictSet {α : Type} : List (String × α) → String → α → List (String × α)
  | [], k, v => [(k, v)]
  | (k', v') :: rest, k, v =>
    if k' = k then (k, v) :: rest else (k', v') :: dictSet rest k v

/-- Python `dict.get(k)`: the binding of `k`, if any. -/
def dictGet {α : Type} : List (String × α) → String → Option α
  | [], _ => Option.none
  | (k', v') :: rest, k => if k' = k then some v' else dictGet rest k

/-- ASCII decimal digit test. -/
def isDigitChar (c : Char) : Bool := 48 ≤ c.toNat && c.toNat ≤ 57

/-- Numeric value of an ASCII digit character. -/
def digitVal (c : Char) : Nat := c.toNat - 48

/-- Value of a nonempty, all-digit character list; `none` otherwise. -/
def digitsToNat : List Char → Option Nat
  | [] => Option.none
  | cs =>
    if cs.all isDigitChar
    then some (cs.foldl (fun acc c => 10 * acc + digitVal c) 0)
    else Option.none

/-- Python whitespace test (the forms relevant to attribute text). -/
def isSpaceChar (c : Char) : Bool := c == ' ' || c == '\t' || c == '\n' || c == '\r'

/-- Python `int(s)` applied to a string: optional surrounding whitespace,
an optional sign, then one or more decimal digits; any other string raises
`ValueError`, modelled as `none`. -/
def pyIntParse (s : String) : Option Int :=
  let cs := ((s.data.dropWhile isSpaceChar).reverse.dropWhile isSpaceChar).reverse
  match cs with
  | '+' :: rest => (digitsToNat rest).map (fun n => (n : Int))
  | '-' :: rest => (digitsToNat rest).map (fun n => -(n : Int))
  | rest => (digitsToNat rest).map (fun n => (n : Int))

/-- Fuel-indexed little-endian decimal digits of `n`; `natDigitsAux n n`
always has enough fuel. -/
def natDigitsAux : Nat → Nat → List Nat
  | 0, _ => []
  | fuel+1, n => if n = 0 then [] else n % 10 :: natDigitsAux fuel (n / 10)

/-- Little-endian decimal digits of `n` (empty for 0). -/
def natDigitsRev (n : Nat) : List Nat := natDigitsAux n n

/-- The ASCII character of a decimal digit. -/
def pyDigitChar (d : Nat) : Char := Char.ofNat (48 + d)

/-- Python `str(n)` for a nonnegative integer: its decimal representation. -/
def pyStrNat (n : Nat) : String :=
  if n = 0 then "0" else String.mk (((natDigitsRev n).reverse).map pyDigitChar)

/-- Python `str.lower()` on a character, for the ASCII range. -/
def pyLowerChar (c : Char) : Char :=
  if 'A' ≤ c ∧ c ≤ 'Z' then Char.ofNat (c.toNat + 32) else c

/-- Python `str.lower()`, for ASCII strings (hash algorithm names). -/
def pyLower (s : String) : String := String.mk (s.data.map pyLowerChar)

/-- The `max 0 (b - a)` consecutive integers starting at `a`. -/
def intRangeAux : Int → Nat → List Int
  | _, 0 => []
  | a, n+1 => a :: intRangeAux (a + 1) n

/-- Python `range(a, b)` over integers: the list `[a, a+1, …, b-1]`. -/
def intRange (a b : Int) : List Int := intRangeAux a (b - a).toNat

/-!
## Extents: `combine_runs` and `extentdb`

`combine_runs` and `extentdb` manipulate `byte_run` objects built as
`byte_run(img_offset=…, len=…)` with concrete integer fields; they are
modelled by the two-field structure `extent`.
-/

/-- A `byte_run` as consumed by `combine_runs` / `extentdb`: an image
offset and a length, both concrete integers. -/
structure extent where
  img_offset : Int
  len : Int
deriving DecidableEq

/-- The loop of `combine_runs(runs)`: `last` is `ret[-1]` and `acc` holds
`ret[:-1]` in reverse; merging rewrites `ret[-1]`, otherwise the current
run is appended. -/
def combine_runs_loop : extent → List extent → List extent → List extent
  | last, acc, [] => (last :: acc).reverse
  | last, acc, run :: rest =>
    if last.img_offset + last.len = run.img_offset
    then combine_runs_loop ⟨last.img_offset, last.len + run.len⟩ acc rest
    else combine_runs_loop run (last :: acc) rest

/-- `combine_runs(runs)`: start from `ret = [runs[0]]` and fold the rest. -/
def combine_runs : List extent → List extent
  | [] => []
  | r :: rest => combine_runs_loop r [] rest

/-- Result of `extentdb.intersects`:  the Python function returns `True`
(for a zero-length candidate), a stored `byte_run`, or `None`, and raises
`ValueError` on a negative length. -/
inductive intersectsResult where
  | invalid
  | sentinel
  | found (d : extent)
  | nothing
deriving DecidableEq

/-- The three overlap tests applied by the loop body of
`extentdb.intersects` to one stored extent `d`, against the candidate's
`start`/`stop` bounds. -/
def extent_collides (start stop : Int) (d : extent) : Prop :=
  (d.img_offset ≤ start ∧ start < d.img_offset + d.len) ∨
  (d.img_offset < stop ∧ stop < d.img_offset + d.len) ∨
  (start < d.img_offset ∧ d.img_offset + d.len ≤ stop)

instance (start stop : Int) (d : extent) : Decidable (extent_collides start stop d) :=
  inferInstanceAs (Decidable ((_ ∧ _) ∨ (_ ∧ _) ∨ (_ ∧ _)))

/-- The state of an `extentdb`: the list of stored runs, in insertion
order, and the sector size. -/
structure extentdb where
  db : List extent
  sectorsize : Int
deriving DecidableEq

/-- `extentdb.__init__(sectorsize=512)`.  The body assigns the literal
`512` to `self.sectorsize`, ignoring the `sectorsize` argument. -/
def extentdb.init (sectorsize : Int) : extentdb :=
  { db := [], sectorsize := 512 }

/-- `extentdb.sectors_for_bytes(count)`. -/
def extentdb.sectors_for_bytes (self : extentdb) (count : Int) : Int :=
  (count + self.sectorsize - 1).fdiv self.sectorsize

/-- `extentdb.sectors_for_run(run)`:
`range(start_sector, start_sector + sector_count)`. -/
def extentdb.sectors_for_run (self : extentdb) (run : extent) : List Int :=
  let start_sector := run.img_offset.fdiv self.sectorsize
  let sector_count := self.sectors_for_bytes run.len
  intRange start_sector (start_sector + sector_count)

/-- `extentdb.run_for_sector(sector_number, count)` (the Python `count`
parameter defaults to 1 at call sites). -/
def extentdb.run_for_sector (self : extentdb) (sector_number count : Int) : extent :=
  ⟨sector_number * self.sectorsize, count * self.sectorsize⟩

/-- `extentdb.intersects(extent)`: `True` for a zero length, `ValueError`
for a negative one, else the first stored run passing one of the three
overlap tests, else `None`. -/
def extentdb.intersects (self : extentdb) (e : extent) : intersectsResult :=
  if e.len = 0 then .sentinel
  else if e.len < 0 then .invalid
  else
    match self.db.find?
        (fun d => decide (extent_collides e.img_offset (e.img_offset + e.len) d)) with
    | some d => .found d
    | Option.none => .nothing

/-- The error raised by `extentdb.add`: either the `ValueError` propagated
out of `intersects` (negative length), or the collision `ValueError`
carrying the truthy value `v` returned by `intersects`. -/
inductive addError where
  | invalid
  | collision (v : intersectsResult)
deriving DecidableEq

/-- `extentdb.add(extent)`.  The pair returns the resulting database state
together with the raised error, if any; on a raise the state component is
the unchanged input state. -/
def extentdb.add (self : extentdb) (e : extent) : extentdb × Option addError :=
  match self.intersects e with
  | .invalid => (self, some .invalid)
  | .sentinel => (self, some (.collision .sentinel))
  | .found d => (self, some (.collision (.found d)))
  | .nothing => ({ self with db := self.db ++ [e] }, Option.none)

/-- `extentdb.add_runs(runs)`: add each run in order, stopping at the
first raise (earlier successful adds stay in place). -/
def extentdb.add_runs : extentdb → List extent → extentdb × Option addError
  | self, [] => (self, Option.none)
  | self, r :: rest =>
    match self.add r with
    | (db', Option.none) => extentdb.add_runs db' rest
    | (db', some err) => (db', some err)

/-- `extentdb.runs_for_sectors(sectors)`. -/
def extentdb.runs_for_sectors (self : extentdb) (sectors : List Int) : List extent :=
  combine_runs (sectors.map (fun x => ⟨x * self.sectorsize, self.sectorsize⟩))

/-- `extentdb.add_sectors(sectors)`. -/
def extentdb.add_sectors (self : extentdb) (sectors : List Int) : extentdb × Option addError :=
  self.add_runs (self.runs_for_sectors sectors)

/-- `extentdb.intersects_sector(sector)`. -/
def extentdb.intersects_sector (self : extentdb) (sector : Int) : intersectsResult :=
  self.intersects (self.run_for_sector sector 1)

/-!
## `byte_run` with dynamic attributes, and the fileobject SAX reader

The parser-facing `byte_run` carries the object's scalar attributes as a
Python `__dict__`-style insertion-ordered map (`attrs`), plus the
dict-valued `hashdigest` attribute, which `__init__` creates and which the
reader mutates (the decoders in the parsed dialects never assign a scalar
attribute named `hashdigest`).
-/

/-- A `byte_run` object: scalar attributes (as in `__dict__`) plus the
`hashdigest` dict. -/
structure byte_run where
  attrs : List (String × PyVal)
  hashdigest : List (String × Option String)
deriving DecidableEq

/-- `byte_run.__init__(img_offset=…, len=…, file_offset=…)`: attributes
are created in source order, `sector_size` is 512 and `hashdigest` an
empty dict. -/
def byte_run.make (img_offset length file_offset : PyVal) : byte_run :=
  { attrs := [("img_offset", img_offset), ("file_offset", file_offset),
              ("len", length), ("sector_size", PyVal.int 512)],
    hashdigest := [] }

/-- `byte_run()` with all defaults. -/
def byte_run.new : byte_run := byte_run.make PyVal.none PyVal.none PyVal.none

/-- Python `setattr(self, key, value)` for a scalar attribute. -/
def byte_run.set_attr (b : byte_run) (key : String) (v : PyVal) : byte_run :=
  { b with attrs := dictSet b.attrs key v }

/-- Python `getattr(self, key, None)` for a scalar attribute. -/
def byte_run.get_attr (b : byte_run) (key : String) : Option PyVal :=
  dictGet b.attrs key

/-- `byte_run.decode_sax_attributes(attr)`.  The source line
`if key=='bytes': key=='len'` merely compares `key` with `'len'` and
discards the result (it does not assign), so the key is left unchanged
and a legacy `bytes` attribute is stored under the name `bytes`.  Each
value is coerced with `int(value)` when that succeeds, else kept as
text. -/
def byte_run.decode_sax_attributes (b : byte_run) (attr : List (String × String)) : byte_run :=
  attr.foldl
    (fun b kv =>
      b.set_attr kv.1
        (match pyIntParse kv.2 with
         | some i => PyVal.int i
         | Option.none => PyVal.str kv.2))
    b

/-- A `fileobject_sax` record: the `_tags` dict, the `_byte_runs` list in
document order, and the whole-object `hashdigest` dict. -/
structure fileobject_sax where
  tags : List (String × Option String)
  byte_runs : List byte_run
  hashdigest : List (String × Option String)
deriving DecidableEq

/-- A fresh `fileobject_sax` (the `imagefile` handle and the `volume`
back-reference are opaque references, not modelled). -/
def fileobject_sax.new : fileobject_sax := ⟨[], [], []⟩

/-- A `volumeobject_sax`: tags, `offset` and `block_size` (the `image`
back-reference is not modelled). -/
structure volumeobject_sax where
  tags : List (String × Option String)
  offset : Int
  block_size : Int
deriving DecidableEq

/-- One expat event: element open (with attributes), character data, or
element close. -/
inductive saxEvent where
  | start (name : String) (attrs : List (String × String))
  | chars (data : String)
  | close (name : String)
deriving DecidableEq

/-- The mutable state of a `fileobject_reader`.  The Python tag stack
appends and pops at the right end and reads `tagstack[-1]`; here the top
of the stack is the head of the list.  `output` records the records
passed to the callback, in callback order (`callback(self.fileobject)`
can legitimately pass `None`). -/
structure fileobject_reader where
  tagstack : List String
  cdata : Option String
  volumeobject : Option volumeobject_sax
  fileobject : Option fileobject_sax
  hashdigest_type : Option String
  imageobject_tags : List (String × Option String)
  output : List (Option fileobject_sax)
deriving DecidableEq

/-- `fileobject_reader.__init__` / `xml_reader.__init__`: one sentinel
entry `'xml'` on the tag stack, no cdata, no volume, no fileobject; the
`hashdigest_type` attribute does not exist yet. -/
def fileobject_reader.init : fileobject_reader :=
  ⟨["xml"], Option.none, Option.none, Option.none, Option.none, [], []⟩

/-- `xml_reader._char_data(data)`: accumulate only when `cdata` is not
`None`. -/
def fileobject_reader.char_data (self : fileobject_reader) (data : String) : fileobject_reader :=
  match self.cdata with
  | some c => { self with cdata := some (c ++ data) }
  | Option.none => self

/-- `fileobject_reader._start_element(name, attrs)`. -/
def fileobject_reader.start_element (self : fileobject_reader) (name : String)
    (attrs : List (String × String)) : Except PyError fileobject_reader :=
  let self := { self with tagstack := name :: self.tagstack, cdata := some "" }
  if name = "volume" then
    -- a new volume context: block_size defaults to 512, offset comes from
    -- the attribute when present (`int` may raise ValueError)
    let vol : volumeobject_sax := { tags := [], offset := 0, block_size := 512 }
    match dictGet attrs "offset" with
    | some s =>
      match pyIntParse s with
      | some i => .ok { self with volumeobject := some { vol with offset := i } }
      | Option.none => .error .valueError
    | Option.none => .ok { self with volumeobject := some vol }
  else if name = "fileobject" then
    .ok { self with fileobject := some fileobject_sax.new }
  else if name = "hashdigest" then
    -- `attrs['type']` raises KeyError when absent
    match dictGet attrs "type" with
    | some t => .ok { self with hashdigest_type := some t }
    | Option.none => .error .keyError
  else
    match self.fileobject with
    | some fo =>
      if name = "run" ∨ name = "byte_run" then
        let fo' := { fo with byte_runs := fo.byte_runs ++ [byte_run.new.decode_sax_attributes attrs] }
        .ok { self with fileobject := some fo' }
      else .ok self
    | Option.none => .ok self

/-- `fileobject_reader._end_element(name)`. -/
def fileobject_reader.end_element (self : fileobject_reader) (name : String) :
    Except PyError fileobject_reader :=
  match self.tagstack with
  | [] => .error .indexError
  | top :: rest =>
    -- assert(self.tagstack.pop()==name)
    if top ≠ name then .error .assertionError else
    let self := { self with tagstack := rest }
    if name = "volume" then .ok { self with volumeobject := Option.none }
    else if name = "block_size" ∧ 1 < rest.length then
      if rest.head? = some "volume" then
        match self.volumeobject with
        | Option.none => .error .attributeError
        | some vol =>
          match self.cdata with
          | Option.none => .error .typeError
          | some c =>
            match pyIntParse c with
            | Option.none => .error .valueError
            | some i =>
              .ok { self with volumeobject := some { vol with block_size := i },
                              cdata := Option.none }
      else .ok self
    else if name = "fileobject" then
      .ok { self with output := self.output ++ [self.fileobject], fileobject := Option.none }
    else if name = "hashdigest" ∧ 0 < rest.length then
      match self.hashdigest_type with
      | Option.none => .error .attributeError
      | some ht =>
        let alg := pyLower ht
        -- `top = self.tagstack[-1]` is read after the pop
        if rest.head? = some "byte_run" then
          match self.fileobject with
          | Option.none => .error .attributeError
          | some fo =>
            match fo.byte_runs.getLast? with
            | Option.none => .error .indexError
            | some b =>
              .ok { self with
                fileobject := some { fo with byte_runs := fo.byte_runs.dropLast ++
                  [{ b with hashdigest := dictSet b.hashdigest alg self.cdata }] },
                cdata := Option.none }
        else if rest.head? = some "fileobject" then
          match self.fileobject with
          | Option.none => .error .attributeError
          | some fo =>
            .ok { self with
              fileobject := some { fo with
                tags := dictSet fo.tags alg self.cdata,
                hashdigest := dictSet fo.hashdigest alg self.cdata },
              cdata := Option.none }
        else .ok { self with cdata := Option.none }
    else
      match self.fileobject with
      | some fo =>
        -- in a file object, all tags are remembered (last write wins)
        .ok { self with fileobject := some { fo with tags := dictSet fo.tags name self.cdata },
                        cdata := Option.none }
      | Option.none =>
        if name = "image_filename" ∨ name = "imagefile" then
          match rest.head? with
          | Option.none => .error .indexError
          | some t =>
            if t = "source" then
              .ok { self with imageobject_tags := dictSet self.imageobject_tags "image_filename" self.cdata }
            else .ok self
        else .ok self

/-- Drive a `fileobject_reader` over a list of expat events; the first
raise aborts the parse. -/
def fileobject_reader.run : fileobject_reader → List saxEvent → Except PyError fileobject_reader
  | st, [] => .ok st
  | st, ev :: rest =>
    match (match ev with
           | .start n a => st.start_element n a
           | .chars d => .ok (st.char_data d)
           | .close n => st.end_element n) with
    | .ok st' => fileobject_reader.run st' rest
    | .error e => .error e

/-- `read_dfxml`: process an event stream from a fresh reader. -/
def read_dfxml (events : List saxEvent) : Except PyError fileobject_reader :=
  fileobject_reader.run fileobject_reader.init events

/-!
## `dftime`

A `dftime` caches up to three representations as instance attributes.
The outer `Option` on each field is attribute presence (`AttributeError`
when read while absent), the inner layer is the Python value, which can
itself be `None`.  The `datetime_` cache is only ever written as a
memoisation of data derivable from the other two fields and is omitted.
The conversion performed by `time.mktime(parse_iso8601(s).timetuple())`
on the uncached path is the parameter `mk` of the model.
-/

/-- The attribute state of a `dftime` object. -/
structure dftime where
  timestamp_ : Option (Option Int)
  iso8601_ : Option (Option String)
deriving DecidableEq

/-- `dftime.__init__(val)` for the value shapes the readers produce:
a string (ISO-form if `len(val)>5 and val[4]=="-"`, else `int(val)` which
may raise `ValueError`), an int, or `None` (both caches set to `None`).
(Construction from a float or from another `dftime` is not exercised by
the embedded readers.) -/
def dftime.make (val : PyVal) : Except PyError dftime :=
  match val with
  | .str s =>
    if 5 < s.length ∧ s.data.get? 4 = some '-' then
      .ok { timestamp_ := Option.none, iso8601_ := some (some s) }
    else
      match pyIntParse s with
      | some n => .ok { timestamp_ := some (some n), iso8601_ := Option.none }
      | Option.none => .error .valueError
  | .int n => .ok { timestamp_ := some (some n), iso8601_ := Option.none }
  | .none => .ok { timestamp_ := some Option.none, iso8601_ := some Option.none }

/-- The `dftime` built from `None`: both caches present and `None`. -/
def dftime.null : dftime := { timestamp_ := some Option.none, iso8601_ := some Option.none }

/-- `dftime.timestamp()`: return the cached `timestamp_` when the
attribute exists (its value may be `None`); otherwise convert the
ISO-8601 text via `mk` (the `datetime_` cache does not exist on the
paths modelled). -/
def dftime.timestamp (mk : String → Except PyError Int) (self : dftime) :
    Except PyError (Option Int) :=
  match self.timestamp_ with
  | some v => .ok v
  | Option.none =>
    match self.iso8601_ with
    | some (some s) => (mk s).map some
    | some Option.none => .error .typeError
    | Option.none => .error .attributeError

/-- `dftime.__eq__(b)` for a `dftime` operand `b`.  The guard
`if b == None` re-enters `__eq__` with `None` and is `False` for any
`dftime` operand, so control always reaches
`self.timestamp()==b.timestamp()`. -/
def dftime.eq (mk : String → Except PyError Int) (self b : dftime) : Except PyError Bool := do
  let ta ← self.timestamp mk
  let tb ← b.timestamp mk
  return decide (ta = tb)

/-!
## The regxml SAX reader

Cells on the object stack are the hive's `registry_object` or
`registry_key_object` / `registry_value_object` instances.  The
`object_index` dict lives on the current `registry_object`
(`self.registry_object`), modelled as a reader-state field that is
`none` while no hive element has been opened.  Base64 decoding
(`safe_b64decode` / `base64.b64decode`) is the parameter `b64`;
`none` models a raised decode error.

The reader state also carries a specification-only ghost field
`synthesized`: the placeholder names invented for nameless keys, in
order of synthesis (no source state is dropped or altered by it).
-/

/-- A `registry_key_object` as built by the reader: its decoded name,
its computed full path, its `type` (`"root"` or `""`), and the fields
the reader can later mutate.  (`used` is constantly `True` and the
`values` dict is never touched by the reader; `parent_key` is only read
during construction, so no back-reference is kept.) -/
structure reg_key where
  name : String
  full_path : String
  type : String
  mtime : Option dftime
  byte_runs : List byte_run
deriving DecidableEq

/-- A `registry_value_object` as built by the reader.  `strings` is the
string-list accumulator (`None` unless `type` is `"string-list"`);
`mtime` models the attribute a nested `mtime` element would `setattr`. -/
structure reg_value where
  name : String
  full_path : String
  type : Option String
  strings : Option (List (Option String))
  value_data : Option String
  mtime : Option dftime
  byte_runs : List byte_run
deriving DecidableEq

/-- One entry of the reader's object stack. -/
inductive regcell where
  | registryObj (mtime : Option dftime)
  | key (k : reg_key)
  | value (v : reg_value)
deriving DecidableEq

/-- `cell.full_path()`: `registry_object` has no such method
(`AttributeError`). -/
def regcell.full_path : regcell → Except PyError String
  | .registryObj _ => .error .attributeError
  | .key k => .ok k.full_path
  | .value v => .ok v.full_path

/-- `setattr(cell, '_mtime', t)`: always succeeds. -/
def regcell.set_mtime : regcell → Option dftime → regcell
  | .registryObj _, t => .registryObj t
  | .key k, t => .key { k with mtime := t }
  | .value v, t => .value { v with mtime := t }

/-- `cell._byte_runs.append(b)`: `registry_object` has no `_byte_runs`
attribute (`AttributeError`). -/
def regcell.append_byte_run : regcell → byte_run → Except PyError regcell
  | .registryObj _, _ => .error .attributeError
  | .key k, b => .ok (.key { k with byte_runs := k.byte_runs ++ [b] })
  | .value v, b => .ok (.value { v with byte_runs := v.byte_runs ++ [b] })

/-- Lift an optional attribute string to the Python value passed to
`byte_run(...)` in the regxml reader (`attrs.get` yields `None` or a
string). -/
def optStrVal : Option String → PyVal
  | some s => PyVal.str s
  | Option.none => PyVal.none

/-- The state of a `regxml_reader`.  The top of `objectstack` is the head
of the list (Python appends and pops at the right end).  `registry_object`
is `none` before any hive element, else the current hive's
`object_index`.  `output` records the cells passed to the callback in
order. -/
structure regxml_reader where
  objectstack : List regcell
  registry_object : Option (List (String × regcell))
  nonce : Nat
  cdata : Option String
  output : List regcell
  synthesized : List String
deriving DecidableEq

/-- `regxml_reader.__init__`: empty stack, no registry object, nonce 0. -/
def regxml_reader.init : regxml_reader :=
  ⟨[], Option.none, 0, Option.none, [], []⟩

/-- `xml_reader._char_data(data)` for the regxml reader. -/
def regxml_reader.char_data (self : regxml_reader) (data : String) : regxml_reader :=
  match self.cdata with
  | some c => { self with cdata := some (c ++ data) }
  | Option.none => self

/-- `regxml_reader.decoded_value(attrs)`: the `value` attribute, `None`
when absent or falsy (the empty string), base64-decoded when an
`encoding`/`value_encoding` attribute says so. -/
def regxml_reader.decoded_value (b64 : String → Option String)
    (attrs : List (String × String)) : Except PyError (Option String) :=
  match dictGet attrs "value" with
  | some v =>
    if v = "" then .ok Option.none
    else
      let enc := match dictGet attrs "encoding" with
                 | some e => some e
                 | Option.none => dictGet attrs "value_encoding"
      if enc = some "base64" then
        match b64 v with
        | some s => .ok (some s)
        | Option.none => .error .valueError
      else .ok (some v)
  | Option.none => .ok Option.none

/-- `regxml_reader._start_element(name, attrs)`. -/
def regxml_reader.start_element (self : regxml_reader) (b64 : String → Option String)
    (name : String) (attrs : List (String × String)) : Except PyError regxml_reader :=
  if name = "msregistry" ∨ name = "hive" then
    .ok { self with objectstack := .registryObj Option.none :: self.objectstack,
                    registry_object := some [] }
  else if name = "key" ∨ name = "node" then
    let type := if dictGet attrs "root" = some "1" then "root" else ""
    let parent : Option regcell :=
      if 1 < self.objectstack.length then self.objectstack.head? else Option.none
    -- sanity check: root key implies no parent
    if type = "root" ∧ parent.isSome then .error .assertionError
    -- sanity check: no parent implies root key (`used` is always True)
    else if parent.isNone ∧ type ≠ "root" then .error .assertionError
    else
      match dictGet attrs "name" with
      | Option.none =>
        -- force a name: artificial prefix applied to the nonce
        let nm := "__DFXML_NONCE_" ++ pyStrNat self.nonce
        match parent with
        | Option.none =>
          .ok { self with
            objectstack := .key ⟨nm, "\\" ++ nm, type, Option.none, []⟩ :: self.objectstack,
            nonce := self.nonce + 1,
            synthesized := self.synthesized ++ [nm] }
        | some p =>
          match p.full_path with
          | .error e => .error e
          | .ok pp =>
            .ok { self with
              objectstack := .key ⟨nm, pp ++ "\\" ++ nm, type, Option.none, []⟩ :: self.objectstack,
              nonce := self.nonce + 1,
              synthesized := self.synthesized ++ [nm] }
      | some name_data =>
        let decoded : Except PyError String :=
          if dictGet attrs "name_encoding" = some "base64" then
            match b64 name_data with
            | some s => .ok s
            | Option.none => .error .valueError
          else .ok name_data
        match decoded with
        | .error e => .error e
        | .ok nm =>
          match parent with
          | Option.none =>
            .ok { self with
              objectstack := .key ⟨nm, "\\" ++ nm, type, Option.none, []⟩ :: self.objectstack }
          | some p =>
            match p.full_path with
            | .error e => .error e
            | .ok pp =>
              .ok { self with
                objectstack := .key ⟨nm, pp ++ "\\" ++ nm, type, Option.none, []⟩ :: self.objectstack }
  else if name = "value" then
    match self.objectstack with
    | [] => .error .indexError
    | parent :: _ =>
      let type := dictGet attrs "type"
      let strs : Option (List (Option String)) :=
        if type = some "string-list" then some [] else Option.none
      let nameRes : Except PyError (Option String) :=
        if dictGet attrs "default" = some "1" then .ok (some "Default")
        else
          let enc := match dictGet attrs "name_encoding" with
                     | some e => some e
                     | Option.none => dictGet attrs "key_encoding"
          let name_data := match dictGet attrs "name" with
                           | some n => some n
                           | Option.none => dictGet attrs "key"
          if enc = some "base64" then
            match name_data with
            | Option.none => .error .attributeError   -- None.encode("ascii")
            | some nd =>
              match b64 nd with
              | some s => .ok (some s)
              | Option.none => .error .valueError
          else .ok name_data
      match nameRes with
      | .error e => .error e
      | .ok Option.none => .error .typeError          -- str + None in the full-path concatenation
      | .ok (some nm) =>
        match parent.full_path with
        | .error e => .error e
        | .ok pp =>
          match regxml_reader.decoded_value b64 attrs with
          | .error e => .error e
          | .ok vd =>
            let cell := regcell.value ⟨nm, pp ++ "\\" ++ nm, type, strs, vd, Option.none, []⟩
            .ok { self with objectstack := cell :: self.objectstack }
  else if name = "mtime" then .ok { self with cdata := some "" }
  else if name = "string" then .ok { self with cdata := some "" }
  else if name = "byte_runs" then .ok self
  else if name = "byte_run" then
    match self.objectstack with
    | [] => .error .indexError
    | c :: rest =>
      let br := byte_run.make PyVal.none (optStrVal (dictGet attrs "len"))
                  (optStrVal (dictGet attrs "file_offset"))
      match c.append_byte_run br with
      | .ok c' => .ok { self with objectstack := c' :: rest }
      | .error e => .error e
  else .error .valueError

/-- `regxml_reader._end_element(name)`. -/
def regxml_reader.end_element (self : regxml_reader) (name : String) :
    Except PyError regxml_reader :=
  if name = "msregistry" ∨ name = "hive" then .ok self
  else if name = "key" ∨ name = "node" then
    match self.objectstack with
    | [] => .error .indexError
    | finished :: rest =>
      match finished.full_path with
      | .error e => .error e
      | .ok path =>
        match self.registry_object with
        | Option.none => .error .attributeError
        | some idx =>
          -- same key path found more than once: fatal
          if (dictGet idx path).isSome then .error .valueError
          else
            .ok { self with objectstack := rest,
                            registry_object := some (dictSet idx path finished),
                            output := self.output ++ [finished] }
  else if name = "mtime" then
    match self.objectstack with
    | [] => .error .indexError
    | c :: rest =>
      match dftime.make (optStrVal self.cdata) with
      | .error e => .error e
      | .ok t =>
        .ok { self with objectstack := c.set_mtime (some t) :: rest, cdata := Option.none }
  else if name = "value" then
    match self.objectstack with
    | [] => .error .indexError
    | finished :: rest =>
      match finished with
      | .value v =>
        let v := if v.value_data = Option.none then { v with value_data := self.cdata } else v
        .ok { self with objectstack := rest, output := self.output ++ [.value v] }
      | _ => .error .attributeError       -- keys / registry objects have no value_data
  else if name = "string" then
    match self.objectstack with
    | [] => .error .indexError
    | c :: rest =>
      match c with
      | .value v =>
        match v.strings with
        | Option.none => .error .valueError   -- parent's type can't support a string list
        | some l =>
          .ok { self with
            objectstack := .value { v with strings := some (l ++ [self.cdata]) } :: rest,
            cdata := Option.none }
      | _ => .error .attributeError           -- keys have no strings attribute
  else if name = "byte_runs" ∨ name = "byte_run" then .ok self
  else .error .valueError

/-- Dispatch one expat event to the matching handler of the regxml
reader. -/
def regxml_reader.step (b64 : String → Option String) (st : regxml_reader) :
    saxEvent → Except PyError regxml_reader
  | .start n a => st.start_element b64 n a
  | .chars d => .ok (st.char_data d)
  | .close n => st.end_element n

/-- Drive a `regxml_reader` over a list of expat events; the first raise
aborts the parse. -/
def regxml_reader.run (b64 : String → Option String) :
    regxml_reader → List saxEvent → Except PyError regxml_reader
  | st, [] => .ok st
  | st, ev :: rest =>
    match regxml_reader.step b64 st ev with
    | .ok st' => regxml_reader.run b64 st' rest
    | .error e => .error e

/-- `read_regxml`: process an event stream from a fresh reader. -/
def read_regxml (b64 : String → Option String) (events : List saxEvent) :
    Except PyError regxml_reader :=
  regxml_reader.run b64 regxml_reader.init events

/-!
## Specification-side definitions

Predicates used to state the claims, plus a structurally recursive
reformulation of `combine_runs` that the proofs relate to the
accumulator loop.
-/

/-- The half-open byte ranges of `c` and `d` overlap: some byte position
lies in both. -/
def ranges_overlap (c d : extent) : Prop :=
  ∃ x : Int, (c.img_offset ≤ x ∧ x < c.img_offset + c.len) ∧
             (d.img_offset ≤ x ∧ x < d.img_offset + d.len)

/-- Byte position `x` is covered by some run of `l`. -/
def covered (x : Int) (l : List extent) : Prop :=
  ∃ r ∈ l, r.img_offset ≤ x ∧ x < r.img_offset + r.len

instance (x : Int) (l : List extent) : Decidable (covered x l) :=
  inferInstanceAs (Decidable (∃ r ∈ l, r.img_offset ≤ x ∧ x < r.img_offset + r.len))

/-- No run of `l` ends exactly where its successor begins (the merge
condition of `combine_runs` fails everywhere). -/
def adjacentFree (l : List extent) : Prop :=
  List.Chain' (fun u v => u.img_offset + u.len ≠ v.img_offset) l

/-- The runs of `l` are in ascending image-offset order. -/
def ascendingByOffset (l : List extent) : Prop :=
  List.Chain' (fun u v => u.img_offset ≤ v.img_offset) l

/-- Head-directed reformulation of `combine_runs`: merge the first two
entries while the first ends where the second begins. -/
def crSpec : List extent → List extent
  | [] => []
  | [a] => [a]
  | a :: b :: rest =>
    if a.img_offset + a.len = b.img_offset
    then crSpec (⟨a.img_offset, a.len + b.len⟩ :: rest)
    else a :: crSpec (b :: rest)
termination_by l => l.length

/-- The extent-database states reachable through the public constructors
and mutators. -/
inductive extentdb.Reachable : extentdb → Prop where
  | init (s : Int) : extentdb.Reachable (extentdb.init s)
  | add (self : extentdb) (e : extent) :
      extentdb.Reachable self → extentdb.Reachable (self.add e).1
  | add_runs (self : extentdb) (rs : List extent) :
      extentdb.Reachable self → extentdb.Reachable (self.add_runs rs).1
  | add_sectors (self : extentdb) (ss : List Int) :
      extentdb.Reachable self → extentdb.Reachable (self.add_sectors ss).1

/-!
## Theorems

Helper lemmas first (shared between claims), then one theorem per claim,
with its witness or counterexample.
-/

theorem find?_first_char {α : Type} (p : α → Bool) (l : List α) (a : α) :
    l.find? p = some a ↔
      ∃ l₁ l₂, l = l₁ ++ a :: l₂ ∧ p a = true ∧ ∀ b ∈ l₁, p b = false := by
  induction l with
  | nil => simp
  | cons x xs ih =>
    by_cases hx : p x
    · rw [List.find?_cons_of_pos _ hx]
      constructor
      · intro h
        injection h with h
        subst h
        exact ⟨[], xs, rfl, hx, by simp⟩
      · rintro ⟨l₁, l₂, heq, hpa, hfirst⟩
        cases l₁ with
        | nil =>
          simp only [List.nil_append] at heq
          injection heq with h1 _
          rw [h1]
        | cons y ys =>
          simp only [List.cons_append] at heq
          injection heq with h1 _
          have hy : p y = false := hfirst y (by simp)
          rw [← h1] at hy
          rw [hx] at hy
          cases hy
    · rw [List.find?_cons_of_neg _ hx]
      rw [ih]
      constructor
      · rintro ⟨l₁, l₂, heq, hpa, hfirst⟩
        refine ⟨x :: l₁, l₂, by simp [heq], hpa, ?_⟩
        intro b hb
        rcases List.mem_cons.mp hb with hb | hb
        · rw [hb]; exact Bool.eq_false_iff.mpr hx
        · exact hfirst b hb
      · rintro ⟨l₁, l₂, heq, hpa, hfirst⟩
        cases l₁ with
        | nil =>
          simp only [List.nil_append] at heq
          injection heq with h1 _
          rw [h1] at hx
          rw [hpa] at hx
          cases hx rfl
        | cons y ys =>
          simp only [List.cons_append] at heq
          injection heq with _ h2
          exact ⟨ys, l₂, h2, hpa, fun b hb => hfirst b (by simp [hb])⟩

theorem collides_iff_overlap (c d : extent) (hc : 0 < c.len) (hd : 0 < d.len) :
    extent_collides c.img_offset (c.img_offset + c.len) d ↔ ranges_overlap c d := by
  unfold extent_collides ranges_overlap
  constructor
  · intro h
    by_cases hcd : c.img_offset ≤ d.img_offset
    · exact ⟨d.img_offset, by omega, by omega⟩
    · exact ⟨c.img_offset, by omega, by omega⟩
  · rintro ⟨x, ⟨hc1, hc2⟩, hd1, hd2⟩
    omega

/-- `add` only ever appends extents of positive length, so every stored
extent of a database built through `add` has positive length. -/
theorem extentdb_add_db_pos (self : extentdb) (e : extent)
    (h : ∀ d ∈ self.db, 0 < d.len) : ∀ d ∈ ((self.add e).1).db, 0 < d.len := by
  unfold extentdb.add
  cases hi : self.intersects e with
  | invalid => simpa using h
  | sentinel => simpa using h
  | found d => simpa using h
  | nothing =>
    simp only []
    intro d hd
    rcases List.mem_append.mp hd with hd | hd
    · exact h d hd
    · have he : d = e := by simpa using hd
      subst he
      unfold extentdb.intersects at hi
      by_cases h0 : d.len = 0
      · rw [if_pos h0] at hi; cases hi
      · by_cases h1 : d.len < 0
        · rw [if_neg h0, if_pos h1] at hi; cases hi
        · omega

/-- Claim C1: for every extent `e` and every database state, when
`intersects(e)` returns a stored extent `d` (necessarily the first stored
extent passing the overlap test, in insertion order), `add(e)` raises the
collision error carrying `d` and leaves the database unchanged; when
`intersects(e)` returns the zero-length sentinel or raises, `add(e)`
fails and likewise leaves the database unchanged; when `intersects(e)` is
empty (`None`), `add(e)` appends `e` to the database. -/
theorem extentdb_add_spec (self : extentdb) (e : extent) :
    (∀ d, self.intersects e = .found d →
      self.add e = (self, some (addError.collision (.found d))) ∧
      self.db.find?
        (fun d' => decide (extent_collides e.img_offset (e.img_offset + e.len) d')) = some d) ∧
    (self.intersects e = .sentinel → self.add e = (self, some (addError.collision .sentinel))) ∧
    (self.intersects e = .invalid → self.add e = (self, some addError.invalid)) ∧
    (self.intersects e = .nothing →
      self.add e = ({ self with db := self.db ++ [e] }, Option.none)) := by
  refine ⟨?_, ?_, ?_, ?_⟩
  · intro d hd
    refine ⟨by simp [extentdb.add, hd], ?_⟩
    unfold extentdb.intersects at hd
    by_cases h0 : e.len = 0
    · rw [if_pos h0] at hd; cases hd
    · rw [if_neg h0] at hd
      by_cases h1 : e.len < 0
      · rw [if_pos h1] at hd; cases hd
      · rw [if_neg h1] at hd
        cases hfind : self.db.find?
            (fun d' => decide (extent_collides e.img_offset (e.img_offset + e.len) d')) with
        | none => rw [hfind] at hd; cases hd
        | some d' =>
          rw [hfind] at hd
          have hdd : d' = d := by
            simpa using hd
          rw [hdd]
  · intro hd; simp [extentdb.add, hd]
  · intro hd; simp [extentdb.add, hd]
  · intro hd; simp [extentdb.add, hd]

theorem extentdb_add_spec_witness :
    (extentdb.mk [⟨0, 100⟩, ⟨100, 50⟩] 512).add ⟨90, 20⟩ =
      (extentdb.mk [⟨0, 100⟩, ⟨100, 50⟩] 512,
        some (addError.collision (.found ⟨0, 100⟩))) ∧
    (extentdb.mk [⟨0, 100⟩, ⟨100, 50⟩] 512).db.find?
      (fun d' => decide (extent_collides (90 : Int) (90 + 20) d')) = some ⟨0, 100⟩ := by
  exact (extentdb_add_spec (extentdb.mk [⟨0, 100⟩, ⟨100, 50⟩] 512) ⟨90, 20⟩).1
    ⟨0, 100⟩ (by decide)

/-- Claim C2: a zero-length candidate yields the trivially-true sentinel,
a negative-length candidate raises the invalid-extent error, and for a
positive-length candidate against stored extents of positive length,
`intersects` returns exactly the first stored extent (in insertion order)
whose half-open byte range overlaps the candidate's, and `None` when no
stored extent overlaps. -/
theorem extentdb_intersects_spec (self : extentdb) (c : extent) :
    (c.len = 0 → self.intersects c = .sentinel) ∧
    (c.len < 0 → self.intersects c = .invalid) ∧
    (0 < c.len → (∀ d ∈ self.db, 0 < d.len) →
      (∀ d, self.intersects c = .found d ↔
        ∃ l₁ l₂, self.db = l₁ ++ d :: l₂ ∧ ranges_overlap c d ∧
          ∀ d' ∈ l₁, ¬ ranges_overlap c d') ∧
      (self.intersects c = .nothing ↔ ∀ d ∈ self.db, ¬ ranges_overlap c d)) := by
  refine ⟨?_, ?_, ?_⟩
  · intro h; unfold extentdb.intersects; rw [if_pos h]
  · intro h; unfold extentdb.intersects; rw [if_neg (by omega), if_pos h]
  · intro hpos hall
    have hiff : ∀ d ∈ self.db,
        (decide (extent_collides c.img_offset (c.img_offset + c.len) d) = true ↔
          ranges_overlap c d) := by
      intro d hd
      rw [decide_eq_true_eq]
      exact collides_iff_overlap c d hpos (hall d hd)
    constructor
    · intro d
      have hfound : self.intersects c = .found d ↔
          self.db.find?
            (fun d' => decide (extent_collides c.img_offset (c.img_offset + c.len) d')) = some d := by
        unfold extentdb.intersects
        rw [if_neg (by omega), if_neg (by omega)]
        cases hfind : self.db.find?
            (fun d' => decide (extent_collides c.img_offset (c.img_offset + c.len) d')) with
        | none => simp
        | some d' => simp
      rw [hfound, find?_first_char]
      constructor
      · rintro ⟨l₁, l₂, heq, hpa, hfirst⟩
        refine ⟨l₁, l₂, heq, ?_, ?_⟩
        · exact (hiff d (by rw [heq]; simp)).mp hpa
        · intro d' hd' hover
          have hmem : d' ∈ self.db := by rw [heq]; exact List.mem_append_left _ hd'
          have htrue := (hiff d' hmem).mpr hover
          rw [hfirst d' hd'] at htrue
          cases htrue
      · rintro ⟨l₁, l₂, heq, hover, hfirst⟩
        refine ⟨l₁, l₂, heq, ?_, ?_⟩
        · exact (hiff d (by rw [heq]; simp)).mpr hover
        · intro b hb
          have hmem : b ∈ self.db := by rw [heq]; exact List.mem_append_left _ hb
          by_cases hbp : decide (extent_collides c.img_offset (c.img_offset + c.len) b) = true
          · exact absurd ((hiff b hmem).mp hbp) (hfirst b hb)
          · simpa using hbp
    · have hnone : self.intersects c = .nothing ↔
          self.db.find?
            (fun d' => decide (extent_collides c.img_offset (c.img_offset + c.len) d')) = Option.none := by
        unfold extentdb.intersects
        rw [if_neg (by omega), if_neg (by omega)]
        cases hfind : self.db.find?
            (fun d' => decide (extent_collides c.img_offset (c.img_offset + c.len) d')) with
        | none => simp
        | some d' => simp
      rw [hnone, List.find?_eq_none]
      constructor
      · intro h d hd hover
        exact h d hd ((hiff d hd).mpr hover)
      · intro h d hd hp
        exact h d hd ((hiff d hd).mp hp)

theorem extentdb_intersects_spec_witness :
    ((extentdb.mk [⟨0, 100⟩] 512).intersects ⟨90, 20⟩ = .found ⟨0, 100⟩ ↔
      ∃ l₁ l₂, (extentdb.mk [⟨0, 100⟩] 512).db = l₁ ++ (⟨0, 100⟩ : extent) :: l₂ ∧
        ranges_overlap ⟨90, 20⟩ ⟨0, 100⟩ ∧ ∀ d' ∈ l₁, ¬ ranges_overlap ⟨90, 20⟩ d') := by
  exact ((extentdb_intersects_spec (extentdb.mk [⟨0, 100⟩] 512) ⟨90, 20⟩).2.2
    (by decide) (by decide)).1 ⟨0, 100⟩

theorem crSpec_nil : crSpec [] = [] := by simp [crSpec]

theorem crSpec_single (a : extent) : crSpec [a] = [a] := by simp [crSpec]

theorem crSpec_merge (a b : extent) (rest : List extent)
    (h : a.img_offset + a.len = b.img_offset) :
    crSpec (a :: b :: rest) = crSpec (⟨a.img_offset, a.len + b.len⟩ :: rest) := by
  simp only [crSpec]; rw [if_pos h]

theorem crSpec_keep (a b : extent) (rest : List extent)
    (h : ¬ a.img_offset + a.len = b.img_offset) :
    crSpec (a :: b :: rest) = a :: crSpec (b :: rest) := by
  simp only [crSpec]; rw [if_neg h]

theorem combine_runs_loop_eq (rest : List extent) :
    ∀ (last : extent) (acc : List extent),
      combine_runs_loop last acc rest = acc.reverse ++ crSpec (last :: rest) := by
  induction rest with
  | nil => intro last acc; simp [combine_runs_loop, crSpec_single]
  | cons run rest' ih =>
    intro last acc
    simp only [combine_runs_loop]
    by_cases h : last.img_offset + last.len = run.img_offset
    · rw [if_pos h, ih, crSpec_merge _ _ _ h]
    · rw [if_neg h, ih, crSpec_keep _ _ _ h]
      simp

/-- `combine_runs` agrees with its head-directed reformulation. -/
theorem combine_runs_eq_crSpec (l : List extent) : combine_runs l = crSpec l := by
  cases l with
  | nil => rw [crSpec_nil]; rfl
  | cons r rest =>
    show combine_runs_loop r [] rest = _
    rw [combine_runs_loop_eq]
    rfl

theorem crSpec_head?_off (l : List extent) :
    (crSpec l).head?.map extent.img_offset = l.head?.map extent.img_offset := by
  induction l using crSpec.induct with
  | case1 => simp [crSpec_nil]
  | case2 a => simp [crSpec_single]
  | case3 a b rest h ih => rw [crSpec_merge _ _ _ h, ih]; rfl
  | case4 a b rest h ih => rw [crSpec_keep _ _ _ h]; rfl

theorem crSpec_adjacentFree (l : List extent) : adjacentFree (crSpec l) := by
  induction l using crSpec.induct with
  | case1 => rw [crSpec_nil]; exact List.chain'_nil
  | case2 a => rw [crSpec_single]; exact List.chain'_singleton a
  | case3 a b rest h ih => rw [crSpec_merge _ _ _ h]; exact ih
  | case4 a b rest h ih =>
    rw [crSpec_keep _ _ _ h]
    refine List.chain'_cons'.mpr ⟨?_, ih⟩
    intro y hy
    have hh := crSpec_head?_off (b :: rest)
    rw [hy] at hh
    have : y.img_offset = b.img_offset := by
      simpa using hh
    rw [this]
    exact h

theorem crSpec_of_adjacentFree (l : List extent) (hl : adjacentFree l) : crSpec l = l := by
  induction l using crSpec.induct with
  | case1 => exact crSpec_nil
  | case2 a => exact crSpec_single a
  | case3 a b rest h ih =>
    exfalso
    exact (List.chain'_cons.mp hl).1 h
  | case4 a b rest h ih =>
    rw [crSpec_keep _ _ _ h, ih (List.chain'_cons.mp hl).2]

theorem crSpec_idem (l : List extent) : crSpec (crSpec l) = crSpec l :=
  crSpec_of_adjacentFree _ (crSpec_adjacentFree l)

theorem covered_cons (x : Int) (r : extent) (l : List extent) :
    covered x (r :: l) ↔ (r.img_offset ≤ x ∧ x < r.img_offset + r.len) ∨ covered x l := by
  simp [covered]

theorem crSpec_covered (l : List extent) (hnn : ∀ r ∈ l, 0 ≤ r.len) (x : Int) :
    covered x (crSpec l) ↔ covered x l := by
  induction l using crSpec.induct with
  | case1 => rw [crSpec_nil]
  | case2 a => rw [crSpec_single]
  | case3 a b rest h ih =>
    have ha : 0 ≤ a.len := hnn a (by simp)
    have hb : 0 ≤ b.len := hnn b (by simp)
    have hnn' : ∀ r ∈ (⟨a.img_offset, a.len + b.len⟩ : extent) :: rest, 0 ≤ r.len := by
      intro r hr
      rcases List.mem_cons.mp hr with hr | hr
      · rw [hr]; dsimp only; omega
      · exact hnn r (by simp [hr])
    rw [crSpec_merge _ _ _ h, ih hnn']
    simp only [covered_cons]
    by_cases hC : covered x rest
    · simp only [hC, or_true]
    · simp only [hC, or_false]
      omega
  | case4 a b rest h ih =>
    have hnn' : ∀ r ∈ b :: rest, 0 ≤ r.len := fun r hr => hnn r (by simp [List.mem_cons.mp hr])
    rw [crSpec_keep _ _ _ h, covered_cons, covered_cons, ih hnn']

theorem crSpec_offsets_sublist (l : List extent) :
    ((crSpec l).map extent.img_offset).Sublist (l.map extent.img_offset) := by
  induction l using crSpec.induct with
  | case1 => rw [crSpec_nil]
  | case2 a => rw [crSpec_single]
  | case3 a b rest h ih =>
    rw [crSpec_merge _ _ _ h]
    refine ih.trans ?_
    simp only [List.map_cons]
    exact List.Sublist.cons₂ _ (List.sublist_cons_self _ _)
  | case4 a b rest h ih =>
    rw [crSpec_keep _ _ _ h]
    simp only [List.map_cons]
    exact List.Sublist.cons₂ _ ih

/-- Claim C7: on a list of byte runs in ascending image-offset order (with
nonnegative lengths), `combine_runs` output covers exactly the same byte
positions as its input, keeps the surviving runs in input order (the
output start offsets form a subsequence of the input's), is idempotent,
leaves no mergeable pair in its output, and acts as the identity exactly
on inputs with no mergeable pair (so a run is merged into the previous
output entry precisely when that entry ends where the run begins, and is
otherwise appended unchanged). -/
theorem combine_runs_spec (rs : List extent)
    (hasc : ascendingByOffset rs) (hnn : ∀ r ∈ rs, 0 ≤ r.len) :
    (∀ x, covered x (combine_runs rs) ↔ covered x rs) ∧
    ((combine_runs rs).map extent.img_offset).Sublist (rs.map extent.img_offset) ∧
    combine_runs (combine_runs rs) = combine_runs rs ∧
    adjacentFree (combine_runs rs) ∧
    (adjacentFree rs → combine_runs rs = rs) := by
  simp only [combine_runs_eq_crSpec]
  exact ⟨crSpec_covered rs hnn, crSpec_offsets_sublist rs, crSpec_idem rs,
    crSpec_adjacentFree rs, crSpec_of_adjacentFree rs⟩

theorem combine_runs_spec_witness :
    (covered 700 (combine_runs [⟨0, 512⟩, ⟨512, 512⟩]) ↔
      covered 700 [(⟨0, 512⟩ : extent), ⟨512, 512⟩]) ∧
    combine_runs (combine_runs [⟨0, 512⟩, ⟨512, 512⟩]) = combine_runs [⟨0, 512⟩, ⟨512, 512⟩] ∧
    combine_runs [⟨0, 512⟩, ⟨512, 512⟩] = [⟨0, 1024⟩] := by
  have h := combine_runs_spec [⟨0, 512⟩, ⟨512, 512⟩]
    (by simp [ascendingByOffset, List.chain'_cons, List.chain'_singleton]) (by decide)
  exact ⟨h.1 700, h.2.2.1, by decide⟩

theorem mem_intRangeAux : ∀ (n : Nat) (a y : Int),
    y ∈ intRangeAux a n ↔ a ≤ y ∧ y < a + (n : Int) := by
  intro n
  induction n with
  | zero =>
    intro a y
    simp only [intRangeAux, List.not_mem_nil, false_iff]
    omega
  | succ k ih =>
    intro a y
    simp only [intRangeAux, List.mem_cons, ih]
    omega

theorem mem_intRange (y a b : Int) : y ∈ intRange a b ↔ a ≤ y ∧ y < b := by
  unfold intRange
  rw [mem_intRangeAux]
  omega

/-- Claim C8 counterexample: for the extent `byte_run(img_offset=0,
len=100)`, rebuilding one-sector runs from `sectors_for_run` covers byte
position 100, which lies outside the extent's byte range `[0, 100)` — the
round trip does not cover "exactly" the extent. -/
theorem sector_round_trip_counterexample :
    covered 100 (((extentdb.init 512).sectors_for_run ⟨0, 100⟩).map
      (fun s => (extentdb.init 512).run_for_sector s 1)) ∧
    ¬ covered 100 [(⟨0, 100⟩ : extent)] := by
  constructor
  · decide
  · decide

/-- Claim C8 (amended): for an extent whose image offset and length are
multiples of the sector size 512 (length nonnegative), applying
`run_for_sector` to each sector index of `sectors_for_run(e)` yields
one-sector runs whose union of byte ranges covers exactly the byte range
of `e`.  (For unaligned extents the rebuilt runs cover whole boundary
sectors, hence more or fewer bytes than `e`.) -/
theorem sector_round_trip_aligned (db : extentdb) (e : extent) (q m : Int)
    (hss : db.sectorsize = 512)
    (ho : e.img_offset = 512 * q) (hl : e.len = 512 * m) (hm : 0 ≤ m) :
    ∀ x : Int,
      covered x ((db.sectors_for_run e).map (fun s => db.run_for_sector s 1)) ↔
        (e.img_offset ≤ x ∧ x < e.img_offset + e.len) := by
  intro x
  have h1 : e.img_offset.fdiv db.sectorsize = q := by
    rw [hss, ho, Int.fdiv_eq_ediv _ (by norm_num)]
    omega
  have h2 : db.sectors_for_bytes e.len = m := by
    unfold extentdb.sectors_for_bytes
    rw [hss, hl, Int.fdiv_eq_ediv _ (by norm_num)]
    omega
  have hrun : db.sectors_for_run e = intRange q (q + m) := by
    show intRange (e.img_offset.fdiv db.sectorsize)
      (e.img_offset.fdiv db.sectorsize + db.sectors_for_bytes e.len) = _
    rw [h1, h2]
  rw [hrun]
  unfold covered
  constructor
  · rintro ⟨r, hr, hx1, hx2⟩
    rcases List.mem_map.mp hr with ⟨s, hs, rfl⟩
    have hsb := (mem_intRange s q (q + m)).mp hs
    unfold extentdb.run_for_sector at hx1 hx2
    rw [hss] at hx1 hx2
    dsimp only at hx1 hx2
    rw [ho, hl]
    omega
  · rintro ⟨hx1, hx2⟩
    rw [ho] at hx1
    rw [ho, hl] at hx2
    have hk0 : 0 ≤ (x - 512 * q) / 512 := by omega
    have hkm : (x - 512 * q) / 512 < m := by omega
    refine ⟨db.run_for_sector (q + (x - 512 * q) / 512) 1,
      List.mem_map.mpr ⟨q + (x - 512 * q) / 512,
        (mem_intRange _ q (q + m)).mpr ⟨by omega, by omega⟩, rfl⟩, ?_, ?_⟩
    · unfold extentdb.run_for_sector
      rw [hss]
      dsimp only
      omega
    · unfold extentdb.run_for_sector
      rw [hss]
      dsimp only
      omega

theorem sector_round_trip_aligned_witness :
    covered 1000 (((extentdb.init 512).sectors_for_run ⟨512, 1024⟩).map
      (fun s => (extentdb.init 512).run_for_sector s 1)) ↔
      ((512 : Int) ≤ 1000 ∧ (1000 : Int) < 512 + 1024) := by
  exact sector_round_trip_aligned (extentdb.init 512) ⟨512, 1024⟩ 1 2 rfl
    (by norm_num) (by norm_num) (by norm_num) 1000

theorem extentdb_add_keeps_sectorsize (self : extentdb) (e : extent) :
    ((self.add e).1).sectorsize = self.sectorsize := by
  unfold extentdb.add
  cases h : self.intersects e <;> rfl

theorem extentdb_add_runs_keeps_sectorsize :
    ∀ (rs : List extent) (self : extentdb),
      ((extentdb.add_runs self rs).1).sectorsize = self.sectorsize := by
  intro rs
  induction rs with
  | nil => intro self; rfl
  | cons r rest ih =>
    intro self
    unfold extentdb.add_runs
    cases hadd : self.add r with
    | mk db' err =>
      have hss : db'.sectorsize = self.sectorsize := by
        have h := extentdb_add_keeps_sectorsize self r
        rw [hadd] at h
        exact h
      cases err with
      | none => exact (ih db').trans hss
      | some e => exact hss

theorem extentdb_add_sectors_keeps_sectorsize (self : extentdb) (ss : List Int) :
    ((self.add_sectors ss).1).sectorsize = self.sectorsize :=
  extentdb_add_runs_keeps_sectorsize _ self

/-- Claim C10 (implicit): the `sectorsize` argument of the constructor is
ignored — the constructed database's sector size is the literal 512 — and
every reachable database state still has sector size 512, so all sector
computations (`sectors_for_bytes`, `sectors_for_run`, `run_for_sector`,
`intersects_sector`, `runs_for_sectors`) divide and multiply by 512. -/
theorem extentdb_sectorsize_spec :
    (∀ s : Int, (extentdb.init s).sectorsize = 512) ∧
    ∀ st : extentdb, extentdb.Reachable st →
      st.sectorsize = 512 ∧
      (∀ c, st.sectors_for_bytes c = (c + 511).fdiv 512) ∧
      (∀ r, st.sectors_for_run r =
        intRange (r.img_offset.fdiv 512) (r.img_offset.fdiv 512 + (r.len + 511).fdiv 512)) ∧
      (∀ n k, st.run_for_sector n k = ⟨n * 512, k * 512⟩) ∧
      (∀ s, st.intersects_sector s = st.intersects ⟨s * 512, 512⟩) ∧
      (∀ ss, st.runs_for_sectors ss = combine_runs (ss.map (fun x => ⟨x * 512, 512⟩))) := by
  constructor
  · intro s; rfl
  · intro st hr
    have h512 : st.sectorsize = 512 := by
      induction hr with
      | init s => rfl
      | add self e hself ih => rw [extentdb_add_keeps_sectorsize]; exact ih
      | add_runs self rs hself ih => rw [extentdb_add_runs_keeps_sectorsize]; exact ih
      | add_sectors self ss hself ih => rw [extentdb_add_sectors_keeps_sectorsize]; exact ih
    refine ⟨h512, ?_, ?_, ?_, ?_, ?_⟩
    · intro c
      unfold extentdb.sectors_for_bytes
      rw [h512]
      congr 1
      ring
    · intro r
      show intRange (r.img_offset.fdiv st.sectorsize)
        (r.img_offset.fdiv st.sectorsize + st.sectors_for_bytes r.len) = _
      unfold extentdb.sectors_for_bytes
      rw [h512]
      congr 2 <;> ring_nf
    · intro n k
      unfold extentdb.run_for_sector
      rw [h512]
    · intro s
      unfold extentdb.intersects_sector extentdb.run_for_sector
      rw [h512]
      norm_num
    · intro ss
      unfold extentdb.runs_for_sectors
      rw [h512]

theorem extentdb_sectorsize_spec_witness :
    (extentdb.init 1024).sectorsize = 512 ∧
    (extentdb.init 1024).sectors_for_bytes 1000 = ((1000 : Int) + 511).fdiv 512 ∧
    (extentdb.init 1024).run_for_sector 3 1 = ⟨3 * 512, 1 * 512⟩ := by
  have h := extentdb_sectorsize_spec.2 (extentdb.init 1024) (extentdb.Reachable.init 1024)
  exact ⟨h.1, h.2.1 1000, h.2.2.2.1 3 1⟩

/-- Claim C3: evaluation at the failing input.  The source line
`if key=='bytes': key=='len'` (comment: "provide backwards
compatiability") compares instead of assigning, so decoding
`{bytes: "512"}` leaves `len` at its initialised `None` and stores the
value under the attribute name `bytes`, while the claimed behaviour —
identical to decoding `{len: "512"}` — would set `len` to 512.  The
numeric/text coercion half of the claim does hold. -/
theorem byte_run_bytes_alias_code_bug :
    (byte_run.new.decode_sax_attributes [("bytes", "512")]).get_attr "len" =
      some PyVal.none ∧
    (byte_run.new.decode_sax_attributes [("bytes", "512")]).get_attr "bytes" =
      some (PyVal.int 512) ∧
    (byte_run.new.decode_sax_attributes [("len", "512")]).get_attr "len" =
      some (PyVal.int 512) ∧
    (byte_run.new.decode_sax_attributes [("fill", "ab")]).get_attr "fill" =
      some (PyVal.str "ab") := by
  refine ⟨?_, ?_, ?_, ?_⟩ <;> decide

/-- Claim C4 counterexample: a hash digest enclosed in a `run` element —
one of the two accepted run-leaf spellings — is silently dropped: after
the close, the appended byte run's hash dict and the file object's hash
dict are both still empty, where the claim requires the digest in the
run's hash map. -/
theorem hashdigest_run_spelling_counterexample :
    (read_dfxml
      [.start "fileobject" [], .start "run" [("img_offset", "0"), ("len", "512")],
       .start "hashdigest" [("type", "MD5")], .chars "deadbeef",
       .close "hashdigest"]).map
      (fun st => st.fileobject.map
        (fun fo => (fo.byte_runs.map byte_run.hashdigest, fo.hashdigest))) =
    Except.ok (some ([[]], [])) := by rfl

/-- Claim C4 (amended): on closing a hash-digest leaf with the digest
type recorded and a file object open — when the directly enclosing
element is the `byte_run` spelling, the digest text is stored under the
lowercased algorithm in the hash dict of the most recently appended byte
run, leaving the file object's own hash dict untouched; when the
enclosing element is the file object itself, it is stored in the file
object's whole-object hash dict (and its legacy tags dict), leaving the
runs untouched; a digest enclosed in the `run` spelling is discarded
(only the cdata is reset).  The two destinations are never conflated. -/
theorem hashdigest_attribution_spec
    (st : fileobject_reader) (top : String) (rest : List String)
    (ht : String) (fo : fileobject_sax)
    (hstack : st.tagstack = "hashdigest" :: top :: rest)
    (htype : st.hashdigest_type = some ht)
    (hfo : st.fileobject = some fo) :
    (∀ runs b, top = "byte_run" → fo.byte_runs = runs ++ [b] →
      st.end_element "hashdigest" = Except.ok { st with
        tagstack := top :: rest,
        fileobject := some { fo with byte_runs := runs ++
          [{ b with hashdigest := dictSet b.hashdigest (pyLower ht) st.cdata }] },
        cdata := Option.none }) ∧
    (top = "fileobject" →
      st.end_element "hashdigest" = Except.ok { st with
        tagstack := top :: rest,
        fileobject := some { fo with
          tags := dictSet fo.tags (pyLower ht) st.cdata,
          hashdigest := dictSet fo.hashdigest (pyLower ht) st.cdata },
        cdata := Option.none }) ∧
    (top = "run" →
      st.end_element "hashdigest" = Except.ok { st with
        tagstack := top :: rest, cdata := Option.none }) := by
  refine ⟨?_, ?_, ?_⟩
  · intro runs b htop hruns
    subst htop
    simp [fileobject_reader.end_element, hstack, htype, hfo, hruns,
      List.getLast?_concat, List.dropLast_concat]
  · intro htop
    subst htop
    simp [fileobject_reader.end_element, hstack, htype, hfo]
  · intro htop
    subst htop
    simp [fileobject_reader.end_element, hstack, htype, hfo]

theorem hashdigest_attribution_spec_witness :
    (fileobject_reader.mk ["hashdigest", "byte_run", "fileobject", "xml"]
        (some "deadbeef") Option.none (some ⟨[], [byte_run.new], []⟩)
        (some "MD5") [] []).end_element "hashdigest" =
      Except.ok (fileobject_reader.mk ["byte_run", "fileobject", "xml"]
        Option.none Option.none
        (some ⟨[], [{ byte_run.new with
          hashdigest := dictSet byte_run.new.hashdigest (pyLower "MD5") (some "deadbeef") }], []⟩)
        (some "MD5") [] []) := by
  exact (hashdigest_attribution_spec _ "byte_run" ["fileobject", "xml"] "MD5"
    ⟨[], [byte_run.new], []⟩ rfl rfl rfl).1 [] byte_run.new rfl rfl

/-- Claim C5 counterexample: two values with the identical full path
`\R\v` are both closed without any error, the callback fires twice, and
the hive's object index stays empty — closing a value performs no
duplicate-path check and no registration, so the claimed
"same registration-then-callback pattern as keys" does not hold. -/
theorem regxml_value_no_registration_counterexample :
    (read_regxml (fun _ => Option.none)
      [.start "msregistry" [], .start "key" [("root", "1"), ("name", "R")],
       .start "value" [("name", "v")], .close "value",
       .start "value" [("name", "v")], .close "value"]).map
      (fun st => (st.registry_object, st.output.length)) =
    Except.ok (some [], 2) := by rfl

/-- Claim C5 (amended): closing a key computes its full path and checks
it against the hive's shared object index — a duplicate raises the
duplicate-path error, otherwise the key is registered under its path and
the callback is invoked; closing a value, by contrast, pops it and
invokes the callback (with `value_data` falling back to the accumulated
cdata) WITHOUT any duplicate-path check and WITHOUT registering it in
the object index. -/
theorem regxml_close_registration_spec
    (st : regxml_reader) (idx : List (String × regcell))
    (hidx : st.registry_object = some idx) :
    (∀ k rest', st.objectstack = regcell.key k :: rest' →
      ((dictGet idx k.full_path).isSome →
        st.end_element "key" = Except.error PyError.valueError) ∧
      ((dictGet idx k.full_path).isNone →
        st.end_element "key" = Except.ok { st with
          objectstack := rest',
          registry_object := some (dictSet idx k.full_path (.key k)),
          output := st.output ++ [.key k] })) ∧
    (∀ v rest', st.objectstack = regcell.value v :: rest' →
      st.end_element "value" = Except.ok { st with
        objectstack := rest',
        output := st.output ++
          [.value (if v.value_data = Option.none then { v with value_data := st.cdata } else v)] }) := by
  constructor
  · intro k rest' hstack
    constructor
    · intro hdup
      rcases Option.isSome_iff_exists.mp hdup with ⟨c, hc⟩
      simp [regxml_reader.end_element, hstack, hidx, regcell.full_path, hc]
    · intro hfresh
      have hnone : dictGet idx k.full_path = Option.none := Option.not_isSome_iff_eq_none.mp (by simp [Option.isNone_iff_eq_none.mp hfresh])
      simp [regxml_reader.end_element, hstack, hidx, regcell.full_path, hnone]
  · intro v rest' hstack
    simp [regxml_reader.end_element, hstack]

theorem regxml_close_registration_spec_witness :
    (regxml_reader.mk [regcell.key ⟨"R", "\\R", "root", Option.none, []⟩]
        (some []) 0 Option.none [] []).end_element "key" =
      Except.ok (regxml_reader.mk []
        (some (dictSet [] "\\R" (.key ⟨"R", "\\R", "root", Option.none, []⟩))) 0 Option.none
        [.key ⟨"R", "\\R", "root", Option.none, []⟩] []) := by
  exact ((regxml_close_registration_spec _ [] rfl).1
    ⟨"R", "\\R", "root", Option.none, []⟩ [] rfl).2 (by decide)

theorem natDigitsAux_recompose (fuel : Nat) :
    ∀ n, n ≤ fuel → (natDigitsAux fuel n).foldr (fun d acc => d + 10 * acc) 0 = n := by
  induction fuel with
  | zero =>
    intro n h
    interval_cases n
    simp [natDigitsAux]
  | succ f ih =>
    intro n h
    by_cases h0 : n = 0
    · simp [natDigitsAux, h0]
    · have hd : n / 10 ≤ f := by omega
      simp only [natDigitsAux, h0, if_false, List.foldr]
      have := ih (n / 10) hd
      omega

theorem natDigitsAux_lt_ten (fuel : Nat) :
    ∀ n d, d ∈ natDigitsAux fuel n → d < 10 := by
  induction fuel with
  | zero => intro n d hd; simp [natDigitsAux] at hd
  | succ f ih =>
    intro n d hd
    by_cases h0 : n = 0
    · simp [natDigitsAux, h0] at hd
    · simp only [natDigitsAux, h0, if_false, List.mem_cons] at hd
      rcases hd with hd | hd
      · omega
      · exact ih _ _ hd

theorem pyDigitChar_inj : ∀ a < 10, ∀ b < 10, pyDigitChar a = pyDigitChar b → a = b := by
  decide

theorem map_pyDigitChar_inj :
    ∀ (l1 l2 : List Nat), (∀ x ∈ l1, x < 10) → (∀ x ∈ l2, x < 10) →
      l1.map pyDigitChar = l2.map pyDigitChar → l1 = l2 := by
  intro l1
  induction l1 with
  | nil =>
    intro l2 _ _ h
    cases l2 with
    | nil => rfl
    | cons y ys => simp at h
  | cons x xs ih =>
    intro l2 h1 h2 h
    cases l2 with
    | nil => simp at h
    | cons y ys =>
      simp only [List.map_cons, List.cons.injEq] at h
      have hx : x = y :=
        pyDigitChar_inj x (h1 x (by simp)) y (h2 y (by simp)) h.1
      rw [hx, ih ys (fun z hz => h1 z (by simp [hz])) (fun z hz => h2 z (by simp [hz])) h.2]

/-- The decimal rendering of a natural number is injective. -/
theorem pyStrNat_inj (m n : Nat) (h : pyStrNat m = pyStrNat n) : m = n := by
  have hrec : ∀ k : Nat, (natDigitsRev k).foldr (fun d acc => d + 10 * acc) 0 = k :=
    fun k => natDigitsAux_recompose k k le_rfl
  have hlt : ∀ k : Nat, ∀ x ∈ (natDigitsRev k).reverse, x < 10 :=
    fun k x hx => natDigitsAux_lt_ten k k x (List.mem_reverse.mp hx)
  have hchar : List.map pyDigitChar [0] = ['0'] := by decide
  unfold pyStrNat at h
  by_cases hm : m = 0 <;> by_cases hn : n = 0
  · rw [hm, hn]
  · rw [if_pos hm, if_neg hn] at h
    exfalso
    have hdata : (['0'] : List Char) = ((natDigitsRev n).reverse).map pyDigitChar :=
      congrArg String.data h
    have hdig := map_pyDigitChar_inj [0] ((natDigitsRev n).reverse)
      (by simp) (hlt n) (hchar.trans hdata)
    have hrevd : natDigitsRev n = [0] := by
      have := congrArg List.reverse hdig
      simpa using this.symm
    have h1 := hrec n
    rw [hrevd] at h1
    simp at h1
    exact hn h1.symm
  · rw [if_neg hm, if_pos hn] at h
    exfalso
    have hdata : ((natDigitsRev m).reverse).map pyDigitChar = (['0'] : List Char) :=
      congrArg String.data h
    have hdig := map_pyDigitChar_inj ((natDigitsRev m).reverse) [0]
      (hlt m) (by simp) (hdata.trans hchar.symm)
    have hrevd : natDigitsRev m = [0] := by
      have := congrArg List.reverse hdig
      simpa using this
    have h1 := hrec m
    rw [hrevd] at h1
    simp at h1
    exact hm h1.symm
  · rw [if_neg hm, if_neg hn] at h
    have hdata : ((natDigitsRev m).reverse).map pyDigitChar =
        ((natDigitsRev n).reverse).map pyDigitChar :=
      congrArg String.data h
    have hdig := map_pyDigitChar_inj ((natDigitsRev m).reverse) ((natDigitsRev n).reverse)
      (hlt m) (hlt n) hdata
    have hrev : natDigitsRev m = natDigitsRev n := by
      have := congrArg List.reverse hdig
      simpa using this
    have h1 := hrec m
    have h2 := hrec n
    rw [hrev] at h1
    omega

theorem nonceName_inj (a b : Nat)
    (h : "__DFXML_NONCE_" ++ pyStrNat a = "__DFXML_NONCE_" ++ pyStrNat b) : a = b := by
  apply pyStrNat_inj
  have hdata := congrArg String.data h
  rw [String.data_append, String.data_append] at hdata
  have hd := List.append_cancel_left hdata
  cases hA : pyStrNat a with
  | mk la =>
    cases hB : pyStrNat b with
    | mk lb =>
      rw [hA, hB] at hd
      exact congrArg String.mk hd

theorem regxml_start_element_synth (st : regxml_reader) (b64 : String → Option String)
    (name : String) (attrs : List (String × String)) (st' : regxml_reader)
    (h : st.start_element b64 name attrs = Except.ok st') :
    (st'.nonce = st.nonce ∧ st'.synthesized = st.synthesized) ∨
    (st'.nonce = st.nonce + 1 ∧
     st'.synthesized = st.synthesized ++ ["__DFXML_NONCE_" ++ pyStrNat st.nonce]) := by
  unfold regxml_reader.start_element at h
  simp only [] at h
  repeat' split at h
  all_goals first
    | (injection h with h; subst h;
       first
         | exact Or.inl ⟨rfl, rfl⟩
         | exact Or.inr ⟨rfl, rfl⟩)
    | (injection h)

theorem regxml_end_element_synth (st : regxml_reader) (name : String) (st' : regxml_reader)
    (h : st.end_element name = Except.ok st') :
    st'.nonce = st.nonce ∧ st'.synthesized = st.synthesized := by
  unfold regxml_reader.end_element at h
  simp only [] at h
  repeat' split at h
  all_goals first
    | (injection h with h; subst h; exact ⟨rfl, rfl⟩)
    | (injection h)

theorem regxml_run_synth_inv (b64 : String → Option String) :
    ∀ (evs : List saxEvent) (st st' : regxml_reader),
      regxml_reader.run b64 st evs = Except.ok st' →
      st.synthesized = (List.range st.nonce).map (fun k => "__DFXML_NONCE_" ++ pyStrNat k) →
      st'.synthesized = (List.range st'.nonce).map (fun k => "__DFXML_NONCE_" ++ pyStrNat k) := by
  intro evs
  induction evs with
  | nil =>
    intro st st' h hinv
    unfold regxml_reader.run at h
    injection h with h
    subst h
    exact hinv
  | cons ev rest ih =>
    intro st st' h hinv
    unfold regxml_reader.run at h
    cases hstep : regxml_reader.step b64 st ev with
    | error e => rw [hstep] at h; injection h
    | ok st1 =>
      rw [hstep] at h
      refine ih st1 st' h ?_
      cases ev with
      | start n a =>
        have hse : st.start_element b64 n a = Except.ok st1 := hstep
        rcases regxml_start_element_synth st b64 n a st1 hse with ⟨h1, h2⟩ | ⟨h1, h2⟩
        · rw [h2, h1, hinv]
        · rw [h2, h1, hinv, List.range_succ]
          simp
      | chars d =>
        have hch : Except.ok (st.char_data d) = Except.ok st1 := hstep
        injection hch with hch
        have hpres : (st.char_data d).synthesized = st.synthesized ∧
            (st.char_data d).nonce = st.nonce := by
          unfold regxml_reader.char_data
          cases st.cdata <;> exact ⟨rfl, rfl⟩
        rw [← hch, hpres.1, hpres.2, hinv]
      | close n =>
        have hce : st.end_element n = Except.ok st1 := hstep
        have := regxml_end_element_synth st n st1 hce
        rw [this.2, this.1, hinv]

theorem regxml_value_no_name_fails (st : regxml_reader) (b64 : String → Option String)
    (attrs : List (String × String))
    (hn : dictGet attrs "name" = Option.none) (hk : dictGet attrs "key" = Option.none)
    (hd : ¬ dictGet attrs "default" = some "1") :
    ∃ e, st.start_element b64 "value" attrs = Except.error e := by
  unfold regxml_reader.start_element
  cases hS : st.objectstack with
  | nil =>
    refine ⟨PyError.indexError, ?_⟩
    simp [hS]
  | cons parent rest' =>
    by_cases henc : (match dictGet attrs "name_encoding" with
        | some e => some e
        | Option.none => dictGet attrs "key_encoding") = some "base64"
    · refine ⟨PyError.attributeError, ?_⟩
      simp [hS, hd, hn, hk, henc]
    · refine ⟨PyError.typeError, ?_⟩
      simp [hS, hd, hn, hk, henc]

/-- Claim C6 counterexample: a `value` element with no `name` (and no
`key` alias and no `default` flag) does not get a synthesized placeholder
name — the parse fails with a `TypeError` (str + None) while computing the
value's full path.  Only keys synthesize nonce names. -/
theorem regxml_value_no_name_counterexample :
    read_regxml (fun _ => Option.none)
      [.start "msregistry" [], .start "key" [("root", "1"), ("name", "R")],
       .start "value" []] = Except.error PyError.typeError := by rfl

/-- Claim C6 (amended): a `key`/`node` element with no `name` attribute
is given the synthesized placeholder `__DFXML_NONCE_<nonce>` and bumps
the parse-wide counter; over any successful parse the synthesized names
are exactly `__DFXML_NONCE_0 … __DFXML_NONCE_(nonce-1)`, in order and
pairwise distinct.  A `value` element, however, never synthesizes a
placeholder: with no `name`/`key` attribute and no `default` flag its
construction raises instead. -/
theorem regxml_nonce_names_spec (b64 : String → Option String) :
    (∀ (st : regxml_reader) (name : String) (attrs : List (String × String))
        (st' : regxml_reader), (name = "key" ∨ name = "node") →
      dictGet attrs "name" = Option.none →
      st.start_element b64 name attrs = Except.ok st' →
      st'.nonce = st.nonce + 1 ∧
      st'.synthesized = st.synthesized ++ ["__DFXML_NONCE_" ++ pyStrNat st.nonce] ∧
      ∃ k rest', st'.objectstack = regcell.key k :: rest' ∧
        k.name = "__DFXML_NONCE_" ++ pyStrNat st.nonce) ∧
    (∀ (evs : List saxEvent) (st' : regxml_reader), read_regxml b64 evs = Except.ok st' →
      st'.synthesized = (List.range st'.nonce).map (fun k => "__DFXML_NONCE_" ++ pyStrNat k) ∧
      st'.synthesized.Nodup) ∧
    (∀ (st : regxml_reader) (attrs : List (String × String)),
        dictGet attrs "name" = Option.none →
      dictGet attrs "key" = Option.none →
      ¬ dictGet attrs "default" = some "1" →
      ∃ e, st.start_element b64 "value" attrs = Except.error e) := by
  refine ⟨?_, ?_, ?_⟩
  · intro st name attrs st' hkey hname h
    have hnotreg : ¬(name = "msregistry" ∨ name = "hive") := by
      rcases hkey with rfl | rfl <;> decide
    unfold regxml_reader.start_element at h
    rw [if_neg hnotreg, if_pos hkey] at h
    simp only [hname] at h
    repeat' split at h
    all_goals first
      | (injection h with h; subst h; exact ⟨rfl, rfl, _, _, rfl, rfl⟩)
      | (injection h)
  · intro evs st' h
    have hinv := regxml_run_synth_inv b64 evs regxml_reader.init st' h rfl
    refine ⟨hinv, ?_⟩
    rw [hinv]
    exact (List.nodup_range _).map (fun a b hab => nonceName_inj a b hab)
  · intro st attrs hn hk hd
    exact regxml_value_no_name_fails st b64 attrs hn hk hd

theorem regxml_nonce_names_spec_witness :
    ((regxml_reader.mk [regcell.registryObj Option.none]
        (some [("\\__DFXML_NONCE_0",
                 regcell.key ⟨"__DFXML_NONCE_0", "\\__DFXML_NONCE_0", "root", Option.none, []⟩),
               ("\\__DFXML_NONCE_1",
                 regcell.key ⟨"__DFXML_NONCE_1", "\\__DFXML_NONCE_1", "root", Option.none, []⟩)])
        2 Option.none
        [regcell.key ⟨"__DFXML_NONCE_0", "\\__DFXML_NONCE_0", "root", Option.none, []⟩,
         regcell.key ⟨"__DFXML_NONCE_1", "\\__DFXML_NONCE_1", "root", Option.none, []⟩]
        ["__DFXML_NONCE_0", "__DFXML_NONCE_1"]).synthesized.Nodup) ∧
    (∃ e, regxml_reader.init.start_element (fun _ => Option.none) "value" [] =
      Except.error e) := by
  constructor
  · exact ((regxml_nonce_names_spec (fun _ => Option.none)).2.1
      [.start "msregistry" [], .start "key" [("root", "1")], .close "key",
       .start "key" [("root", "1")], .close "key"] _ (by rfl)).2
  · exact (regxml_nonce_names_spec (fun _ => Option.none)).2.2 regxml_reader.init []
      rfl rfl (by decide)

/-- Claim C9 counterexample: two Times constructed from `None` compare
EQUAL — `timestamp()` returns the cached `None` for both operands and the
comparison `None == None` is `True` — contradicting the claim that a null
Time never equals another null Time. -/
theorem dftime_null_eq_counterexample :
    dftime.eq (fun _ => Except.error PyError.valueError) dftime.null dftime.null =
      Except.ok true := by rfl

/-- Claim C9 (amended): for any two Times constructed from the null value
(no epoch and no ISO-8601 text), the equality test returns TRUE, not
false: the `b == None` guard does not fire for a `dftime` operand, both
cached timestamps are `None`, and `None == None` yields `True` — whatever
the ISO-conversion routine (it is never consulted on this path). -/
theorem dftime_null_eq_spec (mk : String → Except PyError Int) (a b : dftime)
    (ha : dftime.make PyVal.none = Except.ok a)
    (hb : dftime.make PyVal.none = Except.ok b) :
    dftime.eq mk a b = Except.ok true := by
  injection ha with ha'
  injection hb with hb'
  subst ha'
  subst hb'
  rfl

theorem dftime_null_eq_spec_witness :
    dftime.eq (fun _ => Except.ok 0) dftime.null dftime.null = Except.ok true :=
  dftime_null_eq_spec (fun _ => Except.ok 0) dftime.null dftime.null rfl rfl
